import Mathlib

/-!
Verification development for the streaming chat-response assembler of the
localllm web client (`src/app/page.tsx`, function `sendMessage`, together
with its line parser, fragment decoder and response accumulator).

Strings are embedded as `List Char` (`Str`); the JavaScript string
operations used by the source (split at newlines, `trim`, concatenation) are
given as executable Lean functions on `Str`.
-/

set_option maxHeartbeats 1000000

namespace LlmChat

/-- Character strings, embedded as lists of characters. -/
abbrev Str := List Char

/-- JSON values, as produced by `JSON.parse` on the wire format used by the
Ollama chat stream.  The model covers the subset of JSON exercised by the
stream protocol: `null`, booleans, non-negative integer numbers, strings
without escape sequences, and objects.  (Arrays, fractional/negative
numbers and string escapes do not occur on this wire format and are not
modelled; on inputs outside the subset the modelled parser fails where
`JSON.parse` may succeed, which no theorem below depends on.) -/
inductive Json where
  | null
  | bool (b : Bool)
  | num (n : Nat)
  | str (s : Str)
  | obj (fields : List (Str × Json))

/-- JSON insignificant whitespace characters. -/
def jsonWsChar (c : Char) : Bool :=
  c = ' ' || c = '\t' || c = '\n' || c = '\r'

/-- Skip insignificant whitespace, as `JSON.parse` does between tokens. -/
def skipWs (s : Str) : Str := s.dropWhile jsonWsChar

/-- Parse the body of a JSON string after the opening quote, returning the
string contents and the remaining input.  Escape sequences are outside the
modelled subset and make the parse fail. -/
def parseStringBody : Str → Option (Str × Str)
  | [] => none
  | c :: rest =>
    if c = '"' then some ([], rest)
    else if c = '\\' then none
    else
      match parseStringBody rest with
      | some (s, r) => some (c :: s, r)
      | none => none

/-- Decimal digit test. -/
def isDigitChar (c : Char) : Bool := '0' ≤ c && c ≤ '9'

/-- Numeric value of a digit string. -/
def digitsToNat (ds : Str) : Nat :=
  List.foldl (fun acc c => acc * 10 + (c.toNat - 48)) 0 ds

/-- Strip a literal keyword from the front of the input. -/
def stripLit (lit : Str) (s : Str) : Option Str :=
  if s.take lit.length = lit then some (s.drop lit.length) else none

/-- The keyword `true`. -/
def trueLit : Str := ['t', 'r', 'u', 'e']

/-- The keyword `false`. -/
def falseLit : Str := ['f', 'a', 'l', 's', 'e']

/-- The keyword `null`. -/
def nullLit : Str := ['n', 'u', 'l', 'l']

mutual

/-- Fuel-indexed recursive-descent parser for one JSON value; models
`JSON.parse` on the wire subset.  Returns the value and remaining input. -/
def parseValue : Nat → Str → Option (Json × Str)
  | 0, _ => none
  | fuel + 1, s =>
    match skipWs s with
    | [] => none
    | c :: rest =>
      if c = '"' then
        match parseStringBody rest with
        | some (str, r) => some (Json.str str, r)
        | none => none
      else if c = '{' then
        match skipWs rest with
        | '}' :: r => some (Json.obj [], r)
        | r => match parseMembers fuel r with
               | some (fs, r2) => some (Json.obj fs, r2)
               | none => none
      else if isDigitChar c then
        some (Json.num (digitsToNat ((c :: rest).takeWhile isDigitChar)),
              (c :: rest).dropWhile isDigitChar)
      else
        match stripLit trueLit (c :: rest) with
        | some r => some (Json.bool true, r)
        | none =>
          match stripLit falseLit (c :: rest) with
          | some r => some (Json.bool false, r)
          | none =>
            match stripLit nullLit (c :: rest) with
            | some r => some (Json.null, r)
            | none => none

/-- Parse the members of a JSON object after the opening brace (at least
one member), up to and including the closing brace. -/
def parseMembers : Nat → Str → Option (List (Str × Json) × Str)
  | 0, _ => none
  | fuel + 1, s =>
    match skipWs s with
    | '"' :: rest =>
      match parseStringBody rest with
      | none => none
      | some (key, r1) =>
        match skipWs r1 with
        | ':' :: r2 =>
          match parseValue fuel r2 with
          | none => none
          | some (v, r3) =>
            match skipWs r3 with
            | ',' :: r4 =>
              match parseMembers fuel r4 with
              | some (fs, r5) => some ((key, v) :: fs, r5)
              | none => none
            | '}' :: r4 => some ([(key, v)], r4)
            | _ => none
        | _ => none
    | _ => none

end

/-- Model of `JSON.parse(line)`: parse one complete JSON value spanning the
whole line (trailing whitespace allowed), `none` on a syntax error. -/
def parseJson (s : Str) : Option Json :=
  match parseValue (s.length + 1) s with
  | some (v, rest) => if (skipWs rest).isEmpty then some v else none
  | none => none

/-- JavaScript truthiness of a JSON value (`undefined` is handled by
`Option` at use sites). -/
def jsTruthy : Json → Bool
  | Json.null => false
  | Json.bool b => b
  | Json.num n => n != 0
  | Json.str s => !s.isEmpty
  | Json.obj _ => true

/-- JavaScript property access `v[k]` on a parsed JSON value: field lookup
on objects (`JSON.parse` keeps the last duplicate key), `undefined`
(`none`) on non-objects.  Access on `null` (which throws in JavaScript) is
handled separately at the use site. -/
def jsField (v : Json) (k : Str) : Option Json :=
  match v with
  | Json.obj fields =>
    match fields.reverse.find? (fun f => decide (f.1 = k)) with
    | some f => some f.2
    | none => none
  | _ => none

/-- JavaScript string coercion, as applied by `aiResponseText += x`. -/
def jsToString : Json → Str
  | Json.null => ['n', 'u', 'l', 'l']
  | Json.bool true => ['t', 'r', 'u', 'e']
  | Json.bool false => ['f', 'a', 'l', 's', 'e']
  | Json.num n => (toString n).data
  | Json.str s => s
  | Json.obj _ => ['[', 'o', 'b', 'j', 'e', 'c', 't', ' ', 'O', 'b', 'j', 'e', 'c', 't', ']']

/-- Message senders, as in `interface Message`: `user` or `ai`. -/
inductive Sender where
  | user
  | ai
deriving DecidableEq

/-- A conversation message, as in `interface Message`. -/
structure Message where
  sender : Sender
  text : Str
deriving DecidableEq

/-- The per-cycle streaming state of `sendMessage`: the conversation being
extended, the local `aiResponseText` accumulator and the `firstChunk`
flag. -/
structure StreamState where
  messages : List Message
  aiResponseText : Str
  firstChunk : Bool
deriving DecidableEq

/-- Whitespace characters removed by JavaScript `String.prototype.trim`
(modelled on the ASCII whitespace subset; exotic Unicode whitespace does
not occur in the wire format). -/
def isWsChar (c : Char) : Bool :=
  c = ' ' || c = '\t' || c = '\n' || c = '\r' || c = '\x0b' || c = '\x0c'

/-- Model of `line.trim()`. -/
def trim (s : Str) : Str :=
  ((s.dropWhile isWsChar).reverse.dropWhile isWsChar).reverse

/-- Model of the source splitting a chunk at newlines: splitting the empty
string gives one empty piece, as in JavaScript. -/
def splitOnNl : Str → List Str
  | [] => [[]]
  | c :: cs =>
    if c = '\n' then [] :: splitOnNl cs
    else
      match splitOnNl cs with
      | [] => [[c]]
      | l :: ls => (c :: l) :: ls

/-- The line parser of page.tsx line 143: split the chunk at newlines and
keep the pieces whose trim is non-empty. -/
def lines (chunk : Str) : List Str :=
  (splitOnNl chunk).filter (fun l => !(trim l).isEmpty)

/-- The key `message`. -/
def msgKey : Str := ['m', 'e', 's', 's', 'a', 'g', 'e']

/-- The key `content`. -/
def contentKey : Str := ['c', 'o', 'n', 't', 'e', 'n', 't']

/-- The key `done`. -/
def doneKey : Str := ['d', 'o', 'n', 'e']

/-- What one candidate line does to the stream state (page.tsx lines
145-179): `diag` when `JSON.parse` throws, or when the parsed value is
`null` and the property access `parsedLine.message` throws a TypeError
(both are caught by the same `catch`, which appends a diagnostic message);
`delta d` when `parsedLine.message && parsedLine.message.content` is
truthy, with `d` the string coerced content; `skip` otherwise (including
the `done`-marker branch, which performs no state change). -/
inductive LineEffect where
  | diag
  | skip
  | delta (d : Str)
deriving DecidableEq

/-- Decode one candidate line and classify its effect; follows page.tsx
lines 146-174. -/
def lineEffect (l : Str) : LineEffect :=
  match parseJson l with
  | none => LineEffect.diag
  | some Json.null => LineEffect.diag
  | some v =>
    match jsField v msgKey with
    | none => LineEffect.skip
    | some m =>
      if jsTruthy m then
        match jsField m contentKey with
        | none => LineEffect.skip
        | some c => if jsTruthy c then LineEffect.delta (jsToString c) else LineEffect.skip
      else LineEffect.skip

/-- Diagnostic text appended on a decode failure (page.tsx line 178:
`Error processing response: ${error}`; the engine-specific rendering of
the caught error object is modelled as the fixed prefix). -/
def decodeErrorText : Str :=
  "Error processing response: ".data

/-- The diagnostic assistant message appended on a decode failure. -/
def decodeErrorMessage : Message := ⟨Sender.ai, decodeErrorText⟩

/-- Process one candidate line (page.tsx lines 144-180): decode failures
append a diagnostic assistant message; a truthy content delta extends
`aiResponseText` and either appends a fresh assistant message (first
content fragment of the cycle), rewrites the text of the last message when
it is assistant-sent, or appends a fresh assistant message otherwise. -/
def processLine (s : StreamState) (l : Str) : StreamState :=
  match lineEffect l with
  | LineEffect.diag =>
    ⟨s.messages ++ [decodeErrorMessage], s.aiResponseText, s.firstChunk⟩
  | LineEffect.skip => s
  | LineEffect.delta d =>
    let newText := s.aiResponseText ++ d
    if s.firstChunk then
      ⟨s.messages ++ [⟨Sender.ai, newText⟩], newText, false⟩
    else
      match s.messages.getLast? with
      | some lastMsg =>
        if lastMsg.sender = Sender.ai then
          ⟨s.messages.dropLast ++ [⟨Sender.ai, newText⟩], newText, false⟩
        else
          ⟨s.messages ++ [⟨Sender.ai, newText⟩], newText, false⟩
      | none => ⟨s.messages ++ [⟨Sender.ai, newText⟩], newText, false⟩

/-- Process a list of candidate lines in arrival order (the inner `for`
loop of page.tsx line 144). -/
def processLines (s : StreamState) (ls : List Str) : StreamState :=
  List.foldl processLine s ls

/-- Process one raw text chunk: line parsing followed by the per-line
loop (page.tsx lines 140-180). -/
def processChunk (s : StreamState) (chunk : Str) : StreamState :=
  processLines s (lines chunk)

/-- Process the chunk sequence of one response cycle in arrival order (the
`while` read loop of page.tsx lines 136-181; the incremental
`TextDecoder` is modelled by taking the chunks as text). -/
def processChunks (s : StreamState) (chunks : List Str) : StreamState :=
  List.foldl processChunk s chunks

/-- The UI state touched by `sendMessage`: the conversation, the input
field and the `isLoading` (awaiting-response) flag. -/
structure ChatState where
  messages : List Message
  inputText : Str
  isLoading : Bool
deriving DecidableEq

/-- Outcome of the chat transport for one cycle, as observed by
`sendMessage`: either `fetch` itself rejects (network failure, with the
string rendering of the thrown error), or a response arrives with an HTTP
status, a possibly-null body, the text chunks delivered by the body
reader, and optionally a mid-stream read error (the chunks listed are
those delivered before the failure). -/
inductive Transport where
  | networkError (errText : Str)
  | response (status : Nat) (hasBody : Bool) (chunks : List Str) (streamErr : Option Str)

/-- Model of `response.ok`: HTTP status in the 2xx range. -/
def statusOk (status : Nat) : Bool := 200 ≤ status && status ≤ 299

/-- The guard of `sendMessage` (page.tsx line 96):
`if (!inputText.trim() || isLoading) return`. -/
def sendGuard (st : ChatState) : Bool :=
  (trim st.inputText).isEmpty || st.isLoading

/-- Diagnostic text of the outer catch (page.tsx line 184):
`Sorry, I couldn\x27t connect to the AI. Error: ${error}`, with the string
rendering of the caught error appended. -/
def connectErrText (e : Str) : Str :=
  "Sorry, I couldn\x27t connect to the AI. Error: ".data ++ e

/-- String rendering of the error thrown on a non-2xx status (page.tsx
line 124): a JavaScript `Error` stringifies as `Error: ` followed by its
message `HTTP error! status: ${status}`. -/
def httpErrStr (status : Nat) : Str :=
  "Error: HTTP error! status: ".data ++ (toString status).data

/-- String rendering of the error thrown on a null body (page.tsx
line 128). -/
def nullBodyStr : Str :=
  "Error: Response body is null".data

/-- The full `sendMessage` control flow (page.tsx lines 95-188) on one
transport outcome: guard, user-message append, input clearing, the
fetch/status/body checks, the streaming loop, the outer catch, and the
`finally` clause that clears `isLoading`. -/
def sendMessage (st : ChatState) (t : Transport) : ChatState :=
  if sendGuard st then st
  else
    let updated := st.messages ++ [⟨Sender.user, st.inputText⟩]
    let finalMessages :=
      match t with
      | Transport.networkError e => updated ++ [⟨Sender.ai, connectErrText e⟩]
      | Transport.response status hasBody chunks streamErr =>
        if statusOk status = false then
          updated ++ [⟨Sender.ai, connectErrText (httpErrStr status)⟩]
        else if hasBody = false then
          updated ++ [⟨Sender.ai, connectErrText nullBodyStr⟩]
        else
          let s := processChunks ⟨updated, [], true⟩ chunks
          match streamErr with
          | some e => s.messages ++ [⟨Sender.ai, connectErrText e⟩]
          | none => s.messages
    ⟨finalMessages, [], false⟩

/-- The stream states reached after each processed line (one snapshot per
line of the inner loop; lines that change nothing repeat the state). -/
def streamStates (s : StreamState) (ls : List Str) : List StreamState :=
  match ls with
  | [] => []
  | l :: rest => processLine s l :: streamStates (processLine s l) rest

/-- The stream states reached during the chunk loop, one per processed
line. -/
def chunkStates (s : StreamState) (cs : List Str) : List StreamState :=
  match cs with
  | [] => []
  | c :: rest => streamStates s (lines c) ++ chunkStates (processChunk s c) rest

/-- The UI states visited between the initial update batch and the
`finally` clause of one `sendMessage` invocation (all with the loading
flag raised): one state per streamed line that calls `setMessages`, and
one per error append.  `updated` is the conversation right after the user
message was appended. -/
def sendMids (updated : List Message) : Transport → List ChatState
  | Transport.networkError e =>
    [⟨updated ++ [⟨Sender.ai, connectErrText e⟩], [], true⟩]
  | Transport.response status hasBody chunks streamErr =>
    if statusOk status = false then
      [⟨updated ++ [⟨Sender.ai, connectErrText (httpErrStr status)⟩], [], true⟩]
    else if hasBody = false then
      [⟨updated ++ [⟨Sender.ai, connectErrText nullBodyStr⟩], [], true⟩]
    else
      let snaps := (chunkStates ⟨updated, [], true⟩ chunks).map
        (fun s => (⟨s.messages, [], true⟩ : ChatState))
      match streamErr with
      | some e =>
        snaps ++ [⟨(processChunks ⟨updated, [], true⟩ chunks).messages ++
                    [⟨Sender.ai, connectErrText e⟩], [], true⟩]
      | none => snaps

/-- The successive UI states visited by one `sendMessage` invocation, in
order: empty when the guard returns early; otherwise the state after the
initial `setMessages`/`setInputText`/`setIsLoading(true)` batch, then one
state per streamed line (and per error append), and finally the state
after the `finally` clause clears `isLoading`. -/
def sendStates (st : ChatState) (t : Transport) : List ChatState :=
  if sendGuard st then []
  else
    let updated := st.messages ++ [⟨Sender.user, st.inputText⟩]
    ((⟨updated, [], true⟩ : ChatState) :: sendMids updated t) ++ [sendMessage st t]

/-- The content delta a line contributes to `aiResponseText` (empty for
diagnostic and no-op lines). -/
def fragDelta (l : Str) : Str :=
  match lineEffect l with
  | LineEffect.delta d => d
  | _ => []

/-- Concatenation, in arrival order, of the content deltas of a line
sequence. -/
def concatDeltas (ls : List Str) : Str :=
  (ls.map fragDelta).flatten

/-- A line is well formed when decoding it does not take the diagnostic
path (it parses, and the parsed value is not `null`). -/
def lineOk (l : Str) : Bool :=
  match lineEffect l with
  | LineEffect.diag => false
  | _ => true

/-- Whether a line carries a truthy content delta. -/
def isDeltaLine (l : Str) : Bool :=
  match lineEffect l with
  | LineEffect.delta _ => true
  | _ => false

/-- Whether some line of the sequence carries a content delta. -/
def hasDelta (ls : List Str) : Bool := ls.any isDeltaLine

/-- All candidate lines of a chunk sequence, in arrival order. -/
def allLines (cs : List Str) : List Str := (cs.map lines).flatten

/-- A chunk whose boundary falls at a line boundary: empty, or ending in a
newline. -/
def goodChunk (c : Str) : Bool :=
  match c.getLast? with
  | none => true
  | some x => x = '\n'

/-! Helper lemmas. -/

theorem processLines_nil (s : StreamState) : processLines s [] = s := rfl

theorem processLines_cons (s : StreamState) (l : Str) (ls : List Str) :
    processLines s (l :: ls) = processLines (processLine s l) ls := rfl

theorem processLines_append (s : StreamState) (xs ys : List Str) :
    processLines s (xs ++ ys) = processLines (processLines s xs) ys :=
  List.foldl_append _ _ _ _

theorem processChunk_eq (s : StreamState) (c : Str) :
    processChunk s c = processLines s (lines c) := rfl

theorem processChunks_eq_processLines (s : StreamState) (cs : List Str) :
    processChunks s cs = processLines s (allLines cs) := by
  induction cs generalizing s with
  | nil => rfl
  | cons c cs ih =>
    show processChunks (processChunk s c) cs = _
    rw [ih]
    show processLines (processLines s (lines c)) (allLines cs) = _
    rw [← processLines_append]
    congr 1

theorem concatDeltas_nil : concatDeltas [] = [] := rfl

theorem concatDeltas_cons (l : Str) (ls : List Str) :
    concatDeltas (l :: ls) = fragDelta l ++ concatDeltas ls := by
  simp [concatDeltas]

theorem concatDeltas_append (xs ys : List Str) :
    concatDeltas (xs ++ ys) = concatDeltas xs ++ concatDeltas ys := by
  simp [concatDeltas]

theorem processLine_text (s : StreamState) (l : Str) :
    (processLine s l).aiResponseText = s.aiResponseText ++ fragDelta l := by
  unfold processLine fragDelta
  cases h : lineEffect l with
  | diag => simp
  | skip => simp
  | delta d =>
    simp only
    cases s.firstChunk with
    | true => simp
    | false =>
      cases s.messages.getLast? with
      | none => simp
      | some lastMsg =>
        by_cases hs : lastMsg.sender = Sender.ai <;> simp [hs]

theorem processLines_text (s : StreamState) (ls : List Str) :
    (processLines s ls).aiResponseText = s.aiResponseText ++ concatDeltas ls := by
  induction ls generalizing s with
  | nil => simp [processLines_nil, concatDeltas_nil]
  | cons l ls ih =>
    rw [processLines_cons, ih, processLine_text, concatDeltas_cons, List.append_assoc]

theorem processLine_diag (s : StreamState) (l : Str) (h : lineEffect l = LineEffect.diag) :
    processLine s l = ⟨s.messages ++ [decodeErrorMessage], s.aiResponseText, s.firstChunk⟩ := by
  simp [processLine, h]

theorem processLine_skip (s : StreamState) (l : Str) (h : lineEffect l = LineEffect.skip) :
    processLine s l = s := by
  simp [processLine, h]

theorem processLine_delta_first (s : StreamState) (l : Str) (d : Str)
    (h : lineEffect l = LineEffect.delta d) (hf : s.firstChunk = true) :
    processLine s l =
      ⟨s.messages ++ [⟨Sender.ai, s.aiResponseText ++ d⟩], s.aiResponseText ++ d, false⟩ := by
  simp [processLine, h, hf]

theorem processLine_delta_open (s : StreamState) (l : Str) (d : Str) (lastMsg : Message)
    (h : lineEffect l = LineEffect.delta d) (hf : s.firstChunk = false)
    (hl : s.messages.getLast? = some lastMsg) (hai : lastMsg.sender = Sender.ai) :
    processLine s l =
      ⟨s.messages.dropLast ++ [⟨Sender.ai, s.aiResponseText ++ d⟩],
        s.aiResponseText ++ d, false⟩ := by
  simp [processLine, h, hf, hl, hai]

theorem hasDelta_cons (l : Str) (ls : List Str) :
    hasDelta (l :: ls) = (isDeltaLine l || hasDelta ls) := by
  simp [hasDelta]

theorem fragDelta_of_delta (l : Str) (d : Str) (h : lineEffect l = LineEffect.delta d) :
    fragDelta l = d := by
  simp [fragDelta, h]

theorem fragDelta_of_skip (l : Str) (h : lineEffect l = LineEffect.skip) :
    fragDelta l = [] := by
  simp [fragDelta, h]

/-- Open-message phase of one response cycle: while the last message is the
assistant message of this cycle holding exactly the running text, a
sequence of well-formed lines extends that message (and the running text)
by the concatenated deltas, touching nothing else. -/
theorem processLines_open (ls : List Str) (m0 : List Message) (r : Str)
    (hok : ∀ l ∈ ls, lineOk l = true) :
    processLines ⟨m0 ++ [⟨Sender.ai, r⟩], r, false⟩ ls =
      ⟨m0 ++ [⟨Sender.ai, r ++ concatDeltas ls⟩], r ++ concatDeltas ls, false⟩ := by
  induction ls generalizing r with
  | nil => simp [processLines_nil, concatDeltas_nil]
  | cons l ls ih =>
    rw [processLines_cons]
    cases h : lineEffect l with
    | diag =>
      have : lineOk l = true := hok l (List.mem_cons_self l ls)
      rw [lineOk, h] at this
      exact absurd this (by simp)
    | skip =>
      rw [processLine_skip _ _ h, ih _ (fun x hx => hok x (List.mem_cons_of_mem l hx)),
        concatDeltas_cons, fragDelta_of_skip _ h, List.nil_append]
    | delta d =>
      rw [processLine_delta_open _ _ d ⟨Sender.ai, r⟩ h rfl (List.getLast?_concat m0) rfl]
      simp only [List.dropLast_concat]
      rw [ih _ (fun x hx => hok x (List.mem_cons_of_mem l hx)),
        concatDeltas_cons, fragDelta_of_delta _ _ h, List.append_assoc]

/-- Fresh phase of one response cycle: starting with no open assistant
message, a sequence of well-formed lines either changes nothing (no
content delta at all) or appends exactly one assistant message holding the
concatenated deltas. -/
theorem processLines_fresh (ls : List Str) (m0 : List Message) (r : Str)
    (hok : ∀ l ∈ ls, lineOk l = true) :
    processLines ⟨m0, r, true⟩ ls =
      if hasDelta ls then
        ⟨m0 ++ [⟨Sender.ai, r ++ concatDeltas ls⟩], r ++ concatDeltas ls, false⟩
      else ⟨m0, r, true⟩ := by
  induction ls generalizing r with
  | nil => simp [processLines_nil, hasDelta]
  | cons l ls ih =>
    rw [processLines_cons]
    cases h : lineEffect l with
    | diag =>
      have : lineOk l = true := hok l (List.mem_cons_self l ls)
      rw [lineOk, h] at this
      exact absurd this (by simp)
    | skip =>
      rw [processLine_skip _ _ h, ih _ (fun x hx => hok x (List.mem_cons_of_mem l hx))]
      have hd : isDeltaLine l = false := by simp [isDeltaLine, h]
      rw [hasDelta_cons, hd, Bool.false_or, concatDeltas_cons, fragDelta_of_skip _ h,
        List.nil_append]
    | delta d =>
      rw [processLine_delta_first _ _ d h rfl,
        processLines_open ls m0 (r ++ d) (fun x hx => hok x (List.mem_cons_of_mem l hx))]
      have hd : isDeltaLine l = true := by simp [isDeltaLine, h]
      rw [hasDelta_cons, hd, Bool.true_or, if_pos rfl, concatDeltas_cons,
        fragDelta_of_delta _ _ h, List.append_assoc]

theorem splitOnNl_ne_nil (s : Str) : splitOnNl s ≠ [] := by
  cases s with
  | nil => simp [splitOnNl]
  | cons c cs =>
    simp only [splitOnNl]
    split
    · simp
    · split <;> simp

theorem splitOnNl_cons_nl (cs : Str) : splitOnNl ('\n' :: cs) = [] :: splitOnNl cs := by
  simp [splitOnNl]

theorem splitOnNl_cons_ne (c : Char) (cs : Str) (h : ¬ c = '\n') (l : Str) (ls : List Str)
    (hcs : splitOnNl cs = l :: ls) : splitOnNl (c :: cs) = (c :: l) :: ls := by
  simp [splitOnNl, h, hcs]

/-- Splitting at newlines distributes over concatenation at a newline. -/
theorem splitOnNl_append_nl (a b : Str) :
    splitOnNl (a ++ '\n' :: b) = splitOnNl a ++ splitOnNl b := by
  induction a with
  | nil => simp [splitOnNl_cons_nl, splitOnNl]
  | cons c a ih =>
    by_cases h : c = '\n'
    · subst h
      rw [List.cons_append, splitOnNl_cons_nl, splitOnNl_cons_nl, ih, List.cons_append]
    · cases hs : splitOnNl a with
      | nil => exact absurd hs (splitOnNl_ne_nil a)
      | cons l ls =>
        have hab : splitOnNl (a ++ '\n' :: b) = l :: (ls ++ splitOnNl b) := by
          rw [ih, hs, List.cons_append]
        rw [List.cons_append, splitOnNl_cons_ne c _ h _ _ hab,
          splitOnNl_cons_ne c _ h _ _ hs, List.cons_append]

theorem lines_nil : lines [] = [] := rfl

/-- When a chunk boundary falls at a line boundary, the candidate lines of
the concatenation are the candidate lines of the parts. -/
theorem lines_append_good (c r : Str) (h : goodChunk c = true) :
    lines (c ++ r) = lines c ++ lines r := by
  unfold goodChunk at h
  split at h
  · next hnone =>
    have : c = [] := List.getLast?_eq_none_iff.mp hnone
    subst this
    simp [lines_nil]
  · next x hsome =>
    have hx : x = '\n' := by simpa using h
    subst hx
    obtain ⟨a, rfl⟩ : ∃ a, c = a ++ ['\n'] :=
      ⟨c.dropLast, (List.dropLast_append_getLast? '\n' hsome).symm⟩
    have key : ∀ b : Str, lines (a ++ '\n' :: b) = lines a ++ lines b := by
      intro b
      rw [lines, splitOnNl_append_nl, List.filter_append]
      rfl
    have h1 : lines ((a ++ ['\n']) ++ r) = lines a ++ lines r := by
      rw [List.append_assoc]
      exact key r
    have h2 : lines (a ++ ['\n']) = lines a := by
      have hk := key []
      rw [lines_nil, List.append_nil] at hk
      exact hk
    rw [h1, h2]

/-- For chunkings whose boundaries fall at line boundaries, the candidate
lines depend only on the concatenated text. -/
theorem allLines_eq_of_good (cs : List Str) (h : ∀ c ∈ cs, goodChunk c = true) :
    allLines cs = lines cs.flatten := by
  induction cs with
  | nil => simp [allLines, lines_nil]
  | cons c cs ih =>
    rw [List.flatten_cons, lines_append_good c _ (h c (List.mem_cons_self c cs)),
      ← ih (fun x hx => h x (List.mem_cons_of_mem c hx))]
    simp [allLines]

theorem lineEffect_of_parse_none (l : Str) (h : parseJson l = none) :
    lineEffect l = LineEffect.diag := by
  unfold lineEffect
  rw [h]

theorem fragDelta_of_diag (l : Str) (h : lineEffect l = LineEffect.diag) :
    fragDelta l = [] := by
  simp [fragDelta, h]

/-- No processing step ever changes an existing user-sent message: every
branch of `processLine` appends, or rewrites the last message only when it
is assistant-sent. -/
theorem processLine_preserves_user (s : StreamState) (l : Str) (i : Nat) (m : Message)
    (hm : s.messages[i]? = some m) (hu : m.sender = Sender.user) :
    (processLine s l).messages[i]? = some m := by
  obtain ⟨hilt, -⟩ := List.getElem?_eq_some_iff.mp hm
  cases h : lineEffect l with
  | diag =>
    rw [processLine_diag s l h]
    rw [List.getElem?_append_left hilt]
    exact hm
  | skip => rw [processLine_skip s l h]; exact hm
  | delta d =>
    cases hf : s.firstChunk with
    | true =>
      rw [processLine_delta_first s l d h hf, List.getElem?_append_left hilt]
      exact hm
    | false =>
      cases hl : s.messages.getLast? with
      | none =>
        have : s.messages = [] := List.getLast?_eq_none_iff.mp hl
        rw [this] at hilt
        exact absurd hilt (by simp)
      | some lastMsg =>
        by_cases hai : lastMsg.sender = Sender.ai
        · rw [processLine_delta_open s l d lastMsg h hf hl hai]
          have hlen : 1 ≤ s.messages.length := by
            rcases Nat.eq_zero_or_pos s.messages.length with h0 | h1
            · rw [List.length_eq_zero] at h0
              rw [h0] at hilt
              exact absurd hilt (by simp)
            · exact h1
          rcases Nat.lt_or_ge i (s.messages.length - 1) with hlt | hge
          · rw [List.getElem?_append_left (by simpa [List.length_dropLast] using hlt),
              List.dropLast_eq_take, List.getElem?_take, if_pos hlt]
            exact hm
          · have hieq : i = s.messages.length - 1 := by omega
            have : s.messages[i]? = some lastMsg := by
              rw [hieq, ← List.getLast?_eq_getElem?]
              exact hl
            rw [hm] at this
            have hml : m = lastMsg := by injection this
            rw [← hml, hu] at hai
            exact absurd hai (by decide)
        · have hnotai : (lastMsg.sender = Sender.ai) = False := by simp [hai]
          simp only [processLine, h, hf, hl, hnotai, if_false]
          rw [ite_self, List.getElem?_append_left hilt]
          exact hm

/-! Concrete wire-format inputs used in witnesses and counterexamples. -/

/-- The newline separator. -/
def nlStr : Str := ['\n']

/-- A well-formed content line carrying the delta `Hel`. -/
def lineHel : Str := ("\x7b\"message\":\x7b\"content\":\"Hel\"\x7d\x7d").data

/-- A well-formed content line carrying the delta `lo`. -/
def lineLo : Str := ("\x7b\"message\":\x7b\"content\":\"lo\"\x7d\x7d").data

/-- A well-formed content line carrying the delta `ok`. -/
def lineOkC : Str := ("\x7b\"message\":\x7b\"content\":\"ok\"\x7d\x7d").data

/-- A well-formed content line carrying the delta `a`. -/
def lineA : Str := ("\x7b\"message\":\x7b\"content\":\"a\"\x7d\x7d").data

/-- A well-formed content line carrying the delta `b`. -/
def lineB : Str := ("\x7b\"message\":\x7b\"content\":\"b\"\x7d\x7d").data

/-- A well-formed content line carrying the delta `x`. -/
def lineX : Str := ("\x7b\"message\":\x7b\"content\":\"x\"\x7d\x7d").data

/-- A well-formed content line carrying the delta `y`. -/
def lineY : Str := ("\x7b\"message\":\x7b\"content\":\"y\"\x7d\x7d").data

/-- A malformed (non-JSON) line. -/
def badLine : Str := ("not-json").data

/-- The terminal marker line. -/
def lineDone : Str := ("\x7b\"done\":true\x7d").data

/-- A line whose content field is present but holds the empty string. -/
def lineEmptyContent : Str := ("\x7b\"message\":\x7b\"content\":\"\"\x7d\x7d").data

/-- First half of `lineOkC` split mid-line. -/
def halfOk1 : Str := ("\x7b\"message\":\x7b\"co").data

/-- Second half of `lineOkC` split mid-line, with the line terminator. -/
def halfOk2 : Str := ("ntent\":\"ok\"\x7d\x7d\n").data

/-- A starting conversation holding one user message. -/
def exStart : List Message := [⟨Sender.user, ("hi").data⟩]

/-! Claims. -/

/-- C3 (counterexample): a malformed line between two content fragments of
the same cycle does leave one diagnostic at append time, but the next
content fragment overwrites it (the diagnostic is the last assistant-sent
message, so the positional update replaces its text with the running
text); the diagnostic does not remain visible in the transcript. -/
theorem C3_diag_not_persistent :
    parseJson badLine = none ∧
    (processChunks ⟨exStart, [], true⟩
        [lineX ++ nlStr ++ badLine ++ nlStr ++ lineY ++ nlStr]).messages =
      exStart ++ [⟨Sender.ai, ("x").data⟩, ⟨Sender.ai, ("xy").data⟩] ∧
    decodeErrorMessage ∉
      (processChunks ⟨exStart, [], true⟩
        [lineX ++ nlStr ++ badLine ++ nlStr ++ lineY ++ nlStr]).messages := by
  refine ⟨rfl, rfl, ?_⟩
  decide

/-- C3 (amended): each malformed streamed line is surfaced, at the moment
it is processed, as exactly one diagnostic assistant-sender message
appended to the transcript, leaving the running text and the open-message
flag unchanged; the diagnostic remains in the transcript only as long as
no later content fragment of the same cycle rewrites the last message. -/
theorem C3_diag_appended (s : StreamState) (l : Str) (h : parseJson l = none) :
    processLine s l = ⟨s.messages ++ [decodeErrorMessage], s.aiResponseText, s.firstChunk⟩ :=
  processLine_diag s l (lineEffect_of_parse_none l h)

/-- C3 witness: the diagnostic append at a concrete malformed line. -/
theorem C3_diag_appended_wit :
    processLine ⟨exStart, [], true⟩ badLine =
      ⟨exStart ++ [decodeErrorMessage], [], true⟩ :=
  C3_diag_appended ⟨exStart, [], true⟩ badLine rfl

/-- C4: a malformed line never halts processing: it contributes nothing to
the running text and the driver continues with the next line, so the
accumulated text of a cycle with the malformed line inserted equals the
accumulated text without it, and processing after the malformed line is
exactly processing of the remaining lines from the diagnostic-extended
state. -/
theorem C4_malformed_never_halts (s : StreamState) (p q : List Str) (bad : Str)
    (h : parseJson bad = none) :
    (processLines s (p ++ bad :: q)).aiResponseText =
        (processLines s (p ++ q)).aiResponseText ∧
      processLines s (p ++ bad :: q) =
        processLines ⟨(processLines s p).messages ++ [decodeErrorMessage],
          (processLines s p).aiResponseText, (processLines s p).firstChunk⟩ q := by
  have hd : lineEffect bad = LineEffect.diag := lineEffect_of_parse_none bad h
  constructor
  · rw [processLines_text, processLines_text, concatDeltas_append, concatDeltas_append,
      concatDeltas_cons, fragDelta_of_diag bad hd, List.nil_append]
  · rw [processLines_append, processLines_cons, processLine_diag _ _ hd]

/-- C4 witness: a malformed line between two content lines; the suffix is
still decoded and applied. -/
theorem C4_malformed_never_halts_wit :
    ((processLines ⟨exStart, [], true⟩ ([lineA] ++ badLine :: [lineB])).aiResponseText =
        (processLines ⟨exStart, [], true⟩ ([lineA] ++ [lineB])).aiResponseText) ∧
      processLines ⟨exStart, [], true⟩ ([lineA] ++ badLine :: [lineB]) =
        processLines ⟨(processLines ⟨exStart, [], true⟩ [lineA]).messages ++
            [decodeErrorMessage],
          (processLines ⟨exStart, [], true⟩ [lineA]).aiResponseText,
          (processLines ⟨exStart, [], true⟩ [lineA]).firstChunk⟩ [lineB] :=
  C4_malformed_never_halts ⟨exStart, [], true⟩ [lineA] [lineB] badLine rfl

/-- C8 (counterexample): a fragment whose `content` field is present but
holds the empty string is skipped entirely, because the source tests
JavaScript truthiness (`parsedLine.message && parsedLine.message.content`)
and the empty string is falsy: nothing is appended to the conversation and
the cycle is not marked open, contradicting the claim for present-but-empty
content. -/
theorem C8_empty_content_skipped :
    parseJson lineEmptyContent =
        some (Json.obj [(msgKey, Json.obj [(contentKey, Json.str [])])]) ∧
      processLine ⟨exStart, [], true⟩ lineEmptyContent = ⟨exStart, [], true⟩ :=
  ⟨rfl, rfl⟩

/-- C8 (amended): for every fragment whose content is present and truthy
(in particular any non-empty content string), applying it appends the
content to the running text, and if no assistant message is open for the
cycle, a new assistant message holding the running text is appended and
the cycle is marked open; a fragment whose present content is the empty
string is skipped. -/
theorem C8_content_applied (s : StreamState) (l : Str) (d : Str)
    (h : lineEffect l = LineEffect.delta d) :
    (processLine s l).aiResponseText = s.aiResponseText ++ d ∧
      (s.firstChunk = true →
        processLine s l =
          ⟨s.messages ++ [⟨Sender.ai, s.aiResponseText ++ d⟩], s.aiResponseText ++ d,
            false⟩) := by
  constructor
  · rw [processLine_text, fragDelta_of_delta l d h]
  · intro hf
    exact processLine_delta_first s l d h hf

/-- C8 witness: a concrete content fragment opening the cycle message. -/
theorem C8_content_applied_wit :
    (processLine ⟨exStart, [], true⟩ lineOkC).aiResponseText = [] ++ ("ok").data ∧
      (true = true →
        processLine ⟨exStart, [], true⟩ lineOkC =
          ⟨exStart ++ [⟨Sender.ai, [] ++ ("ok").data⟩], [] ++ ("ok").data, false⟩) :=
  C8_content_applied ⟨exStart, [], true⟩ lineOkC (("ok").data) rfl

/-- C9: a fragment that parses to an object carrying only the `done`
marker (no `message` field) changes nothing: conversation, running text
and open-message status are all left untouched. -/
theorem C9_done_is_noop (s : StreamState) (l : Str) (fields : List (Str × Json))
    (hp : parseJson l = some (Json.obj fields))
    (hmsg : jsField (Json.obj fields) msgKey = none)
    (_hdone : jsField (Json.obj fields) doneKey = some (Json.bool true)) :
    processLine s l = s := by
  have he : lineEffect l = LineEffect.skip := by
    unfold lineEffect
    rw [hp]
    simp [hmsg]
  exact processLine_skip s l he

/-- C9 witness: the concrete terminal line leaves the state unchanged. -/
theorem C9_done_is_noop_wit :
    processLine ⟨exStart, ("ok").data, false⟩ lineDone = ⟨exStart, ("ok").data, false⟩ :=
  C9_done_is_noop ⟨exStart, ("ok").data, false⟩ lineDone [(doneKey, Json.bool true)] rfl rfl
    rfl

/-- C10: invoking `sendMessage` with empty or whitespace-only input, or
while a response is already awaited, is a complete no-op: the state is
returned unchanged (no message appended, input and loading flag intact)
and no UI state update occurs, for every transport outcome. -/
theorem C10_guard_noop (st : ChatState) (t : Transport) (h : sendGuard st = true) :
    sendMessage st t = st ∧ sendStates st t = [] := by
  constructor
  · simp [sendMessage, h]
  · simp [sendStates, h]

/-- C10 witness: whitespace-only input is a no-op. -/
theorem C10_guard_noop_wit :
    sendMessage ⟨exStart, (" ").data, false⟩ (Transport.networkError []) =
        ⟨exStart, (" ").data, false⟩ ∧
      sendStates ⟨exStart, (" ").data, false⟩ (Transport.networkError []) = [] :=
  C10_guard_noop ⟨exStart, (" ").data, false⟩ (Transport.networkError []) (by decide)

theorem sendMids_loading (updated : List Message) (t : Transport) :
    ∀ s ∈ sendMids updated t, s.isLoading = true := by
  intro s hs
  cases t with
  | networkError e =>
    simp only [sendMids, List.mem_singleton] at hs
    rw [hs]
  | response status hasBody chunks se =>
    simp only [sendMids] at hs
    split at hs
    · simp only [List.mem_singleton] at hs
      rw [hs]
    · split at hs
      · simp only [List.mem_singleton] at hs
        rw [hs]
      · cases se with
        | some e =>
          simp only [List.mem_append, List.mem_map, List.mem_singleton] at hs
          rcases hs with ⟨x, -, rfl⟩ | rfl <;> rfl
        | none =>
          simp only [List.mem_map] at hs
          rcases hs with ⟨x, -, rfl⟩
          rfl

/-- The chunk of the C1 counterexample: a content line, a malformed line,
and another content line in one chunk. -/
def c1Chunk : Str := lineA ++ nlStr ++ badLine ++ nlStr ++ lineB ++ nlStr

/-- C1 (counterexample): when a malformed line arrives between two content
fragments of the same cycle, the cycle appends two assistant messages, not
one: the diagnostic append makes the next positional update target the
diagnostic, leaving the earlier assistant message behind with stale text
`a` while the concatenated text `ab` lands in a second message.  The
appended assistant messages do not collapse to exactly one logical
message. -/
theorem C1_not_single_message :
    (processChunks ⟨exStart, [], true⟩ [c1Chunk]).messages =
        exStart ++ [⟨Sender.ai, ("a").data⟩, ⟨Sender.ai, ("ab").data⟩] ∧
      ¬ ∃ t : Str, (processChunks ⟨exStart, [], true⟩ [c1Chunk]).messages =
        exStart ++ [⟨Sender.ai, t⟩] := by
  constructor
  · rfl
  · rintro ⟨t, ht⟩
    have h1 : (processChunks ⟨exStart, [], true⟩ [c1Chunk]).messages =
        exStart ++ [⟨Sender.ai, ("a").data⟩, ⟨Sender.ai, ("ab").data⟩] := rfl
    rw [h1] at ht
    have hlen := congrArg List.length ht
    simp [exStart] at hlen

/-- C1 (amended): for every cycle whose candidate lines all decode
successfully and at least one decoded fragment carries truthy content, the
cycle appends exactly one assistant message, whose final text is the
concatenation, in arrival order, of the content deltas of all decoded
fragments; the final running text is the same concatenation. -/
theorem C1_single_message (m0 : List Message) (cs : List Str)
    (hok : ∀ l ∈ allLines cs, lineOk l = true) (hd : hasDelta (allLines cs) = true) :
    processChunks ⟨m0, [], true⟩ cs =
      ⟨m0 ++ [⟨Sender.ai, concatDeltas (allLines cs)⟩], concatDeltas (allLines cs),
        false⟩ := by
  rw [processChunks_eq_processLines, processLines_fresh (allLines cs) m0 [] hok, if_pos hd]
  simp

/-- C1 witness: the `Hel`/`lo`/`done` scenario yields exactly one
assistant message with text `Hello`. -/
theorem C1_single_message_wit :
    processChunks ⟨exStart, [], true⟩
        [lineHel ++ nlStr, lineLo ++ nlStr, lineDone ++ nlStr] =
      ⟨exStart ++ [⟨Sender.ai, ("Hello").data⟩], ("Hello").data, false⟩ :=
  C1_single_message exStart [lineHel ++ nlStr, lineLo ++ nlStr, lineDone ++ nlStr]
    (by decide) (by decide)

/-- C2 (counterexample): chunking is not invariant under splits that fall
in the middle of a line: the well-formed line carrying `ok`, delivered as
one newline-terminated chunk, yields running text `ok`, but delivered as
two chunks split mid-line it yields empty running text, because each
pieces of each chunk are parsed independently and both halves fail to decode. -/
theorem C2_not_chunking_invariant :
    lineOk lineOkC = true ∧
      halfOk1 ++ halfOk2 = lineOkC ++ nlStr ∧
      (processChunks ⟨exStart, [], true⟩ [lineOkC ++ nlStr]).aiResponseText = ("ok").data ∧
      (processChunks ⟨exStart, [], true⟩ [halfOk1, halfOk2]).aiResponseText = [] :=
  ⟨rfl, rfl, rfl, rfl⟩

/-- C2 (amended): chunking-invariance holds for chunkings whose boundaries
fall at line boundaries: if every chunk of both deliveries is a whole
number of newline-terminated lines (empty or ending in a newline) and both
deliveries carry the same concatenated text, the final stream state — in
particular the final running text — is the same. -/
theorem C2_chunking_invariant (s : StreamState) (cs1 cs2 : List Str)
    (h1 : ∀ c ∈ cs1, goodChunk c = true) (h2 : ∀ c ∈ cs2, goodChunk c = true)
    (hflat : cs1.flatten = cs2.flatten) :
    processChunks s cs1 = processChunks s cs2 := by
  rw [processChunks_eq_processLines, processChunks_eq_processLines,
    allLines_eq_of_good cs1 h1, allLines_eq_of_good cs2 h2, hflat]

/-- C2 witness: one chunk of two lines versus two single-line chunks. -/
theorem C2_chunking_invariant_wit :
    processChunks ⟨exStart, [], true⟩ [lineHel ++ nlStr ++ (lineLo ++ nlStr)] =
      processChunks ⟨exStart, [], true⟩ [lineHel ++ nlStr, lineLo ++ nlStr] :=
  C2_chunking_invariant ⟨exStart, [], true⟩ _ _ (by decide) (by decide) (by decide)

/-- C5: the accumulator never changes an existing user-sent message — every
message position holding a user message is preserved by every processing
step — and when the last message of the conversation is not assistant-sent
(or there is none) while the cycle is past its first fragment or not, a
content fragment appends a new assistant message instead of mutating. -/
theorem C5_never_overwrite_user :
    (∀ (s : StreamState) (l : Str) (i : Nat) (m : Message),
        s.messages[i]? = some m → m.sender = Sender.user →
          (processLine s l).messages[i]? = some m) ∧
      ∀ (s : StreamState) (l : Str) (d : Str),
        lineEffect l = LineEffect.delta d →
          (∀ lastMsg, s.messages.getLast? = some lastMsg → lastMsg.sender = Sender.user) →
          (processLine s l).messages =
            s.messages ++ [⟨Sender.ai, s.aiResponseText ++ d⟩] := by
  constructor
  · exact processLine_preserves_user
  · intro s l d h hlast
    cases hf : s.firstChunk with
    | true => rw [processLine_delta_first s l d h hf]
    | false =>
      cases hl : s.messages.getLast? with
      | none =>
        simp only [processLine, h, hf, hl]
        rw [ite_self]
      | some lastMsg =>
        have hu := hlast lastMsg hl
        have hnotai : (lastMsg.sender = Sender.ai) = False := by
          rw [hu]
          simp
        simp only [processLine, h, hf, hl, hnotai, if_false, ite_self]

/-- C5 witness: a content fragment arriving when the last message is a
user message is appended, and the user message at position 0 is
untouched. -/
theorem C5_never_overwrite_user_wit :
    ((processLine ⟨exStart, [], false⟩ lineOkC).messages[0]? =
        some ⟨Sender.user, ("hi").data⟩) ∧
      (processLine ⟨exStart, [], false⟩ lineOkC).messages =
        exStart ++ [⟨Sender.ai, [] ++ ("ok").data⟩] := by
  constructor
  · exact C5_never_overwrite_user.1 ⟨exStart, [], false⟩ lineOkC 0
      ⟨Sender.user, ("hi").data⟩ rfl rfl
  · refine C5_never_overwrite_user.2 ⟨exStart, [], false⟩ lineOkC (("ok").data) rfl ?_
    intro lastMsg hl
    have h0 : exStart.getLast? = some ⟨Sender.user, ("hi").data⟩ := rfl
    rw [h0] at hl
    injection hl with h1
    rw [← h1]

/-- C6: when the transport itself errors, when the initial request returns
a non-success status, or when the response body is empty, the cycle ends
with exactly one diagnostic assistant message appended after the user
message, and the awaiting-response flag ends false. -/
theorem C6_initial_failure (st : ChatState) (e : Str) (status : Nat) (hasBody : Bool)
    (chunks : List Str) (se : Option Str) (hg : sendGuard st = false) :
    sendMessage st (Transport.networkError e) =
        ⟨st.messages ++ [⟨Sender.user, st.inputText⟩, ⟨Sender.ai, connectErrText e⟩],
          [], false⟩ ∧
      (statusOk status = false →
        sendMessage st (Transport.response status hasBody chunks se) =
          ⟨st.messages ++ [⟨Sender.user, st.inputText⟩,
            ⟨Sender.ai, connectErrText (httpErrStr status)⟩], [], false⟩) ∧
      (statusOk status = true → hasBody = false →
        sendMessage st (Transport.response status hasBody chunks se) =
          ⟨st.messages ++ [⟨Sender.user, st.inputText⟩,
            ⟨Sender.ai, connectErrText nullBodyStr⟩], [], false⟩) := by
  refine ⟨?_, ?_, ?_⟩
  · simp [sendMessage, hg]
  · intro hs
    simp [sendMessage, hg, hs]
  · intro hs hb
    simp [sendMessage, hg, hs, hb]

/-- C6 witness: network failure, HTTP 500, and a null body each append
exactly one diagnostic and end with the loading flag cleared. -/
theorem C6_initial_failure_wit :
    sendMessage ⟨[], ("hi").data, false⟩ (Transport.networkError (("net").data)) =
        ⟨[⟨Sender.user, ("hi").data⟩, ⟨Sender.ai, connectErrText (("net").data)⟩],
          [], false⟩ ∧
      sendMessage ⟨[], ("hi").data, false⟩ (Transport.response 500 true [] none) =
        ⟨[⟨Sender.user, ("hi").data⟩, ⟨Sender.ai, connectErrText (httpErrStr 500)⟩],
          [], false⟩ ∧
      sendMessage ⟨[], ("hi").data, false⟩ (Transport.response 200 false [] none) =
        ⟨[⟨Sender.user, ("hi").data⟩, ⟨Sender.ai, connectErrText nullBodyStr⟩],
          [], false⟩ := by
  refine ⟨?_, ?_, ?_⟩
  · have h := (C6_initial_failure ⟨[], ("hi").data, false⟩ (("net").data) 500 true []
      none (by decide)).1
    simpa using h
  · have h := (C6_initial_failure ⟨[], ("hi").data, false⟩ (("net").data) 500 true []
      none (by decide)).2.1 (by decide)
    simpa using h
  · have h := (C6_initial_failure ⟨[], ("hi").data, false⟩ (("net").data) 200 false []
      none (by decide)).2.2 (by decide) (by decide)
    simpa using h

/-- C7: on every exit path of a send cycle that passes the guard — normal
end-of-stream, decode errors notwithstanding, non-success status, null
body, mid-stream failure or transport error — the awaiting-response flag
ends false; the visited states form a non-empty trace whose last element
is the final state, and every state of the trace before the last (from the
send invocation up to stream termination) has the flag true. -/
theorem C7_loading_lifecycle (st : ChatState) (t : Transport) (hg : sendGuard st = false) :
    (sendMessage st t).isLoading = false ∧
      sendStates st t ≠ [] ∧
      (sendStates st t).getLast? = some (sendMessage st t) ∧
      ∀ s ∈ (sendStates st t).dropLast, s.isLoading = true := by
  have hss : sendStates st t =
      ((⟨st.messages ++ [⟨Sender.user, st.inputText⟩], [], true⟩ : ChatState) ::
        sendMids (st.messages ++ [⟨Sender.user, st.inputText⟩]) t) ++ [sendMessage st t] := by
    simp [sendStates, hg]
  refine ⟨?_, ?_, ?_, ?_⟩
  · simp [sendMessage, hg]
  · rw [hss]
    simp
  · rw [hss, List.getLast?_concat]
  · rw [hss, List.dropLast_concat]
    intro s hs
    rcases List.mem_cons.mp hs with rfl | hmid
    · rfl
    · exact sendMids_loading _ t s hmid

/-- C7 witness: a successful streaming cycle with one content chunk. -/
theorem C7_loading_lifecycle_wit :
    (sendMessage ⟨[], ("hi").data, false⟩
        (Transport.response 200 true [lineHel ++ nlStr] none)).isLoading = false ∧
      sendStates ⟨[], ("hi").data, false⟩
          (Transport.response 200 true [lineHel ++ nlStr] none) ≠ [] ∧
      (sendStates ⟨[], ("hi").data, false⟩
          (Transport.response 200 true [lineHel ++ nlStr] none)).getLast? =
        some (sendMessage ⟨[], ("hi").data, false⟩
          (Transport.response 200 true [lineHel ++ nlStr] none)) ∧
      ∀ s ∈ (sendStates ⟨[], ("hi").data, false⟩
          (Transport.response 200 true [lineHel ++ nlStr] none)).dropLast,
        s.isLoading = true :=
  C7_loading_lifecycle ⟨[], ("hi").data, false⟩
    (Transport.response 200 true [lineHel ++ nlStr] none) (by decide)

end LlmChat
